import Mathlib

/-!
Verification of `src/src/ResponsiveAnalogRead.cpp` (the adaptive smoothing filter and
the piecewise-linear range mapper of the ResponsiveAnalogRead library).

Modelling conventions, fixed once for the whole development:
* C++ `float` values (`smoothValue`, `errorEMA`, `snapMultiplier`, `activityThreshold`,
  intermediate expressions) are embedded as exact rationals `ℚ`;
* C++ `int` values are embedded as `ℤ`;
* the C conversions from a floating value to an integer type (`(int)smoothValue`, the
  implicit conversion in `unsigned int diff = abs(...)`, and the implicit conversion in
  `newValue = (newValue * 2) - activityThreshold`) truncate toward zero, embedded by
  `cInt` below;
* C integer division (line 181) truncates toward zero, embedded by `Int.tdiv`;
* the scan loop of `multiMap` (lines 172-173) walks the `_in` array with no bound
  check; its embedding `scanFrom` recurses structurally over the remaining list
  suffix and returns `none` exactly when the loop would read past the end of the
  array, so `multiMap` returns an `Option` whose `none` marks that out-of-bounds read;
* `Serial` diagnostic printing and the hardware glue (`begin`, `analogRead`,
  `calibrate`) are side effects with no influence on the computed values and are
  omitted.
-/

/-- Truncation toward zero of a rational number, modelling the C conversion of a
`float` expression to an integer type. -/
def cInt (q : ℚ) : ℤ := if q < 0 then -⌊-q⌋ else ⌊q⌋

namespace ResponsiveAnalogRead

/-- Configuration members of the class read by the algorithm. They are declared in
the header (not part of `src/`); the spec gives `snapMultiplier : float ∈ [0,1]`,
`activityThreshold : float` (default 4.0) and `analogResolution : int`
(default 1024, spec name `resolutionMax`). -/
structure Config where
  sleepEnable : Bool
  edgeSnapEnable : Bool
  snapMultiplier : ℚ
  activityThreshold : ℚ
  analogResolution : ℤ

/-- Mutable members of one filter channel, as updated by `update` /
`getResponsiveValue` (lines 51-126). -/
structure State where
  smoothValue : ℚ
  errorEMA : ℚ
  sleeping : Bool
  rawValue : ℤ
  responsiveValue : ℤ
  prevResponsiveValue : ℤ
  responsiveValueHasChanged : Bool

/-- Lines 128-136: the snap curve `y = 1/(x+1); y = (1-y)*2; if (y > 1) return 1.0;
return y;`. -/
def snapCurve (x : ℚ) : ℚ :=
  let y := 1 / (x + 1)
  let y2 := (1 - y) * 2
  if y2 > 1 then 1 else y2

/-- Lines 138-147: `setSnapMultiplier` clamps the configured multiplier into `[0,1]`
(values above 1 are set to 1, then values below 0 are set to 0). -/
def setSnapMultiplier (newMultiplier : ℚ) : ℚ :=
  let m1 := if newMultiplier > 1 then 1 else newMultiplier
  if m1 < 0 then 0 else m1

/-- Lines 67-73: edge-snap preprocessing of the incoming sample. Both rewriting
branches store a mixed `int`/`float` expression back into the `int` variable
`newValue`, truncating toward zero; in the second branch `(newValue * 2) -
analogResolution` is computed in `int` arithmetic before `activityThreshold` is
added in `float` arithmetic. -/
def edgeSnap (cfg : Config) (v : ℤ) : ℤ :=
  if cfg.sleepEnable && cfg.edgeSnapEnable then
    if (v : ℚ) < cfg.activityThreshold then
      cInt (((v * 2 : ℤ) : ℚ) - cfg.activityThreshold)
    else if (v : ℚ) > (cfg.analogResolution : ℚ) - cfg.activityThreshold then
      cInt (((v * 2 - cfg.analogResolution : ℤ) : ℚ) + cfg.activityThreshold)
    else v
  else v

/-- Line 81: the value of `errorEMA` after `errorEMA += ((newValue - smoothValue) -
errorEMA) * 0.4`, where `v` is the (already edge-snapped) sample. -/
def postEMA (st : State) (v : ℤ) : ℚ :=
  st.errorEMA + (((v : ℚ) - st.smoothValue) - st.errorEMA) * (2 / 5)

/-- Lines 117-122: clamp the smooth value into `[0, analogResolution - 1]`. -/
def clampRes (res : ℤ) (q : ℚ) : ℚ :=
  if q < 0 then 0 else if q > (res : ℚ) - 1 then (res : ℚ) - 1 else q

/-- Lines 62-126: one call of `getResponsiveValue`, returning the `int` result
together with the updated member state. `diff` (line 76) is the `unsigned int`
obtained by truncating `abs(newValue - smoothValue)`; `sleeping` is recomputed only
when `sleepEnable` holds (lines 84-87); the sleeping branch (lines 92-94) returns
the truncated `smoothValue` without touching it; otherwise the snap factor, the
flat `snap *= 0.5 + 0.5` multiplier (line 111), the smoothing update and the final
clamp are applied. -/
def getResponsiveValue (cfg : Config) (st : State) (v0 : ℤ) : ℤ × State :=
  let nv := edgeSnap cfg v0
  let diff : ℕ := (⌊|(nv : ℚ) - st.smoothValue|⌋).toNat
  let e := postEMA st nv
  let slp := if cfg.sleepEnable then decide (|e| < cfg.activityThreshold) else st.sleeping
  if cfg.sleepEnable && slp then
    (cInt st.smoothValue, { st with errorEMA := e, sleeping := slp })
  else
    let snap := snapCurve ((diff : ℚ) * cfg.snapMultiplier)
    let snap2 := if cfg.sleepEnable then snap * (1 / 2 + 1 / 2) else snap
    let sm := clampRes cfg.analogResolution (st.smoothValue + ((nv : ℚ) - st.smoothValue) * snap2)
    (cInt sm, { st with smoothValue := sm, errorEMA := e, sleeping := slp })

/-- Lines 51-60: `update(int rawValueRead)` stores the raw sample, shifts the
previous output, recomputes the responsive value and the change flag (the debug
print has no effect on the state). -/
def update (cfg : Config) (st : State) (rawValueRead : ℤ) : State :=
  let r := getResponsiveValue cfg st rawValueRead
  { r.2 with
    rawValue := rawValueRead
    prevResponsiveValue := st.responsiveValue
    responsiveValue := r.1
    responsiveValueHasChanged := decide (r.1 ≠ st.responsiveValue) }

/-- Initial state of a channel: `smoothValue = 0`, `errorEMA = 0` (spec section 3,
lifecycle). -/
def initState : State := ⟨0, 0, false, 0, 0, 0, false⟩

/-- The outputs (`responsiveValue` after each call) emitted while feeding a sequence
of raw samples through `update`. -/
def runOutputs (cfg : Config) (st : State) : List ℤ → List ℤ
  | [] => []
  | v :: vs => (update cfg st v).responsiveValue :: runOutputs cfg (update cfg st v) vs

/-- The state reached after feeding a sequence of raw samples through `update`. -/
def runState (cfg : Config) (st : State) : List ℤ → State
  | [] => st
  | v :: vs => runState cfg (update cfg st v) vs

/-- The condition of line 86 holds at every call of the run: each call finds
`|errorEMA| < activityThreshold` right after the error-EMA update, so (with
`sleepEnable`) each call takes the sleeping branch. -/
def allSleep (cfg : Config) : State → List ℤ → Prop
  | _, [] => True
  | st, v :: vs =>
    |postEMA st (edgeSnap cfg v)| < cfg.activityThreshold ∧ allSleep cfg (update cfg st v) vs

/-- Variant of `getResponsiveValue` with line 111 (`snap *= 0.5 + 0.5`) removed,
used to compare against the original. -/
def getResponsiveValueNoFlat (cfg : Config) (st : State) (v0 : ℤ) : ℤ × State :=
  let nv := edgeSnap cfg v0
  let diff : ℕ := (⌊|(nv : ℚ) - st.smoothValue|⌋).toNat
  let e := postEMA st nv
  let slp := if cfg.sleepEnable then decide (|e| < cfg.activityThreshold) else st.sleeping
  if cfg.sleepEnable && slp then
    (cInt st.smoothValue, { st with errorEMA := e, sleeping := slp })
  else
    let snap := snapCurve ((diff : ℚ) * cfg.snapMultiplier)
    let sm := clampRes cfg.analogResolution (st.smoothValue + ((nv : ℚ) - st.smoothValue) * snap)
    (cInt sm, { st with smoothValue := sm, errorEMA := e, sleeping := slp })

/-- The `update` built on the variant without line 111. -/
def updateNoFlat (cfg : Config) (st : State) (rawValueRead : ℤ) : State :=
  let r := getResponsiveValueNoFlat cfg st rawValueRead
  { r.2 with
    rawValue := rawValueRead
    prevResponsiveValue := st.responsiveValue
    responsiveValue := r.1
    responsiveValueHasChanged := decide (r.1 ≠ st.responsiveValue) }

/-- The outputs of a run of the variant without line 111. -/
def runOutputsNoFlat (cfg : Config) (st : State) : List ℤ → List ℤ
  | [] => []
  | v :: vs =>
    (updateNoFlat cfg st v).responsiveValue :: runOutputsNoFlat cfg (updateNoFlat cfg st v) vs

/-- The final state of a run of the variant without line 111. -/
def runStateNoFlat (cfg : Config) (st : State) : List ℤ → State
  | [] => st
  | v :: vs => runStateNoFlat cfg (updateNoFlat cfg st v) vs

/-- The members of the range mapper stored by `setMap`: the `_in` and `_out` arrays
(modelled as the lists of values they hold), the declared size `_mapSize` (a
`uint8_t`, hence at most 255 in the C API) and the `_map` mode flag. -/
structure MapState where
  _in : List ℤ
  _out : List ℤ
  _mapSize : ℕ
  _map : Bool

/-- Lines 185-199: `setMap(int* in, int* out, uint8_t size)` stores the two table
pointers and the size and turns map mode on; the rest of the body is debug
printing. No validation of any kind is performed. -/
def setMap (st : MapState) (inPts outPts : List ℤ) (size : ℕ) : MapState :=
  { st with _in := inPts, _out := outPts, _mapSize := size, _map := true }

/-- Lines 172-173: the scan loop `uint8_t pos = 1; while(val > _in[pos]) pos++;`,
scanning the array suffix that starts at index `pos`. `none` marks the
out-of-bounds read that the C loop would perform past the end of `_in`. (The C
counter is a `uint8_t`; for the tables reachable through `setMap`, whose size is a
`uint8_t`, the scan is proved below to stop at `pos ≤ _mapSize - 1 ≤ 254`, so the
natural-number counter used here agrees with it.) -/
def scanFrom (val : ℤ) : List ℤ → ℕ → Option ℕ
  | [], _ => none
  | a :: rest, pos => if val > a then scanFrom val rest (pos + 1) else some pos

/-- Lines 149-182: `multiMap` (debug printing omitted). Table reads `_in[i]`,
`_out[i]` are modelled with `List.getD`; the division of line 181 is C integer
division, truncating toward zero. -/
def multiMap (st : MapState) (val : ℤ) : Option ℤ :=
  if val ≤ st._in.getD 0 0 then some (st._out.getD 0 0)
  else if val ≥ st._in.getD (st._mapSize - 1) 0 then some (st._out.getD (st._mapSize - 1) 0)
  else
    match scanFrom val (st._in.drop 1) 1 with
    | none => none
    | some pos =>
      if val = st._in.getD pos 0 then some (st._out.getD pos 0)
      else
        some (Int.tdiv ((val - st._in.getD (pos - 1) 0) *
            (st._out.getD pos 0 - st._out.getD (pos - 1) 0))
            (st._in.getD pos 0 - st._in.getD (pos - 1) 0) +
          st._out.getD (pos - 1) 0)

/-- The example table of the spec (section 8): `in = [0,100,200]`,
`out = [0,128,255]`, installed by `setMap`. -/
def exMap : MapState := setMap ⟨[], [], 0, false⟩ [0, 100, 200] [0, 128, 255] 3

end ResponsiveAnalogRead

namespace ResponsiveAnalogRead

/-! Helper lemmas about the C truncation `cInt` and the output clamp. -/

lemma cInt_of_nonneg (q : ℚ) (h : 0 ≤ q) : cInt q = ⌊q⌋ := by
  unfold cInt
  rw [if_neg (not_lt.mpr h)]

lemma cInt_intCast (k : ℤ) : cInt (k : ℚ) = k := by
  unfold cInt
  split_ifs with h
  · have hk : (-(k : ℚ)) = ((-k : ℤ) : ℚ) := by push_cast; ring
    rw [hk, Int.floor_intCast]
    ring
  · exact Int.floor_intCast k

lemma cInt_nonneg (q : ℚ) (h : 0 ≤ q) : 0 ≤ cInt q := by
  rw [cInt_of_nonneg q h]
  exact Int.floor_nonneg.mpr h

lemma cInt_le_intCast (q : ℚ) (b : ℤ) (h0 : 0 ≤ q) (h : q ≤ (b : ℚ)) : cInt q ≤ b := by
  rw [cInt_of_nonneg q h0]
  calc ⌊q⌋ ≤ ⌊(b : ℚ)⌋ := Int.floor_mono h
  _ = b := Int.floor_intCast b

lemma clampRes_mem (res : ℤ) (q : ℚ) (h : 1 ≤ res) :
    0 ≤ clampRes res q ∧ clampRes res q ≤ (res : ℚ) - 1 := by
  have h1 : (1 : ℚ) ≤ (res : ℚ) := by exact_mod_cast h
  unfold clampRes
  split_ifs with h2 h3
  · constructor <;> linarith
  · constructor <;> linarith
  · have h2' := not_lt.mp h2
    have h3' := not_lt.mp h3
    constructor <;> linarith

end ResponsiveAnalogRead

namespace ResponsiveAnalogRead

/-! Claim C3: range-table construction. -/

/-- C3 counterexample: the spec claims `setMap` fails fast with a
ConfigurationError when fewer than 2 points are supplied or the inPoints are not
strictly increasing. The code rejects nothing: a one-point table and a table with
decreasing inPoints are both accepted, installed verbatim, and map mode is turned
on. -/
theorem C3_counterexample :
    setMap ⟨[], [], 0, false⟩ [5] [7] 1 = ⟨[5], [7], 1, true⟩ ∧
    setMap ⟨[], [], 0, false⟩ [3, 1] [0, 9] 2 = ⟨[3, 1], [0, 9], 2, true⟩ :=
  ⟨rfl, rfl⟩

/-- C3 amended: `setMap` performs no validation at all: for every prior state and
every pair of tables and size (well-formed or not) it unconditionally stores the
given arrays and size and sets `_map = true`; no failure path exists at
configuration time. -/
theorem C3_setMap_no_validation (st : MapState) (inPts outPts : List ℤ) (size : ℕ) :
    setMap st inPts outPts size = ⟨inPts, outPts, size, true⟩ :=
  rfl

/-! Claim C8: the flat multiplier `snap *= 0.5 + 0.5` is a no-op. -/

/-- C8: the statement `snap *= 0.5 + 0.5` (line 111, executed when `sleepEnable`)
multiplies `snap` by exactly 1 and is a no-op: the filter is observationally equal
(same return value and same resulting state on every call, and over every sample
sequence) to the filter with the statement removed. -/
theorem C8_flat_multiplier_noop :
    (∀ (cfg : Config) (st : State) (v0 : ℤ),
      getResponsiveValue cfg st v0 = getResponsiveValueNoFlat cfg st v0)
    ∧ (∀ (cfg : Config) (st : State) (v0 : ℤ), update cfg st v0 = updateNoFlat cfg st v0)
    ∧ (∀ (cfg : Config) (st : State) (samples : List ℤ),
      runOutputs cfg st samples = runOutputsNoFlat cfg st samples
      ∧ runState cfg st samples = runStateNoFlat cfg st samples) := by
  have h1 : ∀ (cfg : Config) (st : State) (v0 : ℤ),
      getResponsiveValue cfg st v0 = getResponsiveValueNoFlat cfg st v0 := by
    intro cfg st v0
    unfold getResponsiveValue getResponsiveValueNoFlat
    norm_num
  have h2 : ∀ (cfg : Config) (st : State) (v0 : ℤ),
      update cfg st v0 = updateNoFlat cfg st v0 := by
    intro cfg st v0
    unfold update updateNoFlat
    rw [h1]
  refine ⟨h1, h2, ?_⟩
  intro cfg st samples
  induction samples generalizing st with
  | nil => exact ⟨rfl, rfl⟩
  | cons v vs ih =>
    have hu : updateNoFlat cfg st v = update cfg st v := (h2 cfg st v).symm
    constructor
    · simp only [runOutputs, runOutputsNoFlat, hu]
      rw [(ih (update cfg st v)).1]
    · simp only [runState, runStateNoFlat, hu]
      exact (ih (update cfg st v)).2

/-! Claim C6: properties of the snap curve. -/

lemma snapCurve_eq_min (x : ℚ) : snapCurve x = min (2 * (1 - 1 / (x + 1))) 1 := by
  show (if (1 - 1 / (x + 1)) * 2 > 1 then (1 : ℚ) else (1 - 1 / (x + 1)) * 2)
      = min (2 * (1 - 1 / (x + 1))) 1
  split_ifs with h
  · rw [min_eq_right]
    linarith
  · rw [min_eq_left]
    · ring
    · linarith [not_lt.mp h]

lemma snapCurve_one_of_le (x : ℚ) (hx : 1 ≤ x) : snapCurve x = 1 := by
  rw [snapCurve_eq_min]
  have hx1 : (0 : ℚ) < x + 1 := by linarith
  have h2 : 1 / (x + 1) ≤ 1 / 2 := by
    apply one_div_le_one_div_of_le
    · norm_num
    · linarith
  exact min_eq_right (by linarith)

lemma snapCurve_mono (x y : ℚ) (hx : 0 ≤ x) (hxy : x ≤ y) : snapCurve x ≤ snapCurve y := by
  rw [snapCurve_eq_min, snapCurve_eq_min]
  have hx1 : (0 : ℚ) < x + 1 := by linarith
  have h : 1 / (y + 1) ≤ 1 / (x + 1) := one_div_le_one_div_of_le hx1 (by linarith)
  exact min_le_min (by linarith) le_rfl

lemma snapCurve_mem (x : ℚ) (hx : 0 ≤ x) : 0 ≤ snapCurve x ∧ snapCurve x ≤ 1 := by
  rw [snapCurve_eq_min]
  have hx1 : (0 : ℚ) < x + 1 := by linarith
  have h : 1 / (x + 1) ≤ 1 := by
    rw [div_le_one hx1]
    linarith
  have h0 : 0 < 1 / (x + 1) := by positivity
  exact ⟨le_min (by linarith) (by norm_num), min_le_right _ _⟩

/-- C6 counterexample: the claim ends with `snap = snapCurve(diff * snapMultiplier)`
always lying in the open-below range (0, 1]. At `diff = 0` (a sample equal to the
current smooth value) the snap factor is `snapCurve 0 = 0`, which is not greater
than 0, so that range is wrong. -/
theorem C6_counterexample :
    snapCurve (((0 : ℕ) : ℚ) * (1 / 2)) = 0 ∧ ¬ 0 < snapCurve (((0 : ℕ) : ℚ) * (1 / 2)) := by
  norm_num [snapCurve]

/-- C6 amended: `snapCurve x = min (2 * (1 - 1/(x+1))) 1`; `snapCurve 0 = 0`;
`snapCurve x = 1` for every `x ≥ 1` (hence it tends to 1 at infinity); `snapCurve`
is monotone non-decreasing on `x ≥ 0`; and the snap factor
`snapCurve (diff * snapMultiplier)` lies in the closed range [0, 1] for every
truncated difference `diff : ℕ` and every `snapMultiplier ≥ 0` (0 is attained, so
the spec's open-below range (0, 1] is corrected to [0, 1]). -/
theorem C6_snap_curve_props :
    (∀ x : ℚ, snapCurve x = min (2 * (1 - 1 / (x + 1))) 1)
    ∧ snapCurve 0 = 0
    ∧ (∀ x : ℚ, 1 ≤ x → snapCurve x = 1)
    ∧ (∀ x y : ℚ, 0 ≤ x → x ≤ y → snapCurve x ≤ snapCurve y)
    ∧ (∀ (d : ℕ) (m : ℚ), 0 ≤ m →
        0 ≤ snapCurve ((d : ℚ) * m) ∧ snapCurve ((d : ℚ) * m) ≤ 1) := by
  refine ⟨snapCurve_eq_min, by norm_num [snapCurve], snapCurve_one_of_le, snapCurve_mono, ?_⟩
  intro d m hm
  exact snapCurve_mem _ (mul_nonneg (Nat.cast_nonneg d) hm)

/-- C6 witness: the quantified parts of `C6_snap_curve_props` applied at concrete
inputs, with every hypothesis discharged there. -/
theorem C6_witness :
    snapCurve 3 = 1 ∧ snapCurve 1 ≤ snapCurve 2 ∧ 0 ≤ snapCurve (((4 : ℕ) : ℚ) * (1 / 2)) :=
  ⟨C6_snap_curve_props.2.2.1 3 (by norm_num),
   C6_snap_curve_props.2.2.2.1 1 2 (by norm_num) (by norm_num),
   (C6_snap_curve_props.2.2.2.2 4 (1 / 2) (by norm_num)).1⟩

end ResponsiveAnalogRead

namespace ResponsiveAnalogRead

/-! Claims C2 and C10: behaviour of the sleeping branch (lines 84-94). -/

/-- When `sleepEnable` holds and the freshly updated error EMA is below the
activity threshold in magnitude, `getResponsiveValue` takes the sleeping branch:
it returns the truncated `smoothValue` and updates only `errorEMA` and `sleeping`. -/
lemma getResponsiveValue_sleep (cfg : Config) (st : State) (v : ℤ)
    (hs : cfg.sleepEnable = true)
    (hq : |postEMA st (edgeSnap cfg v)| < cfg.activityThreshold) :
    getResponsiveValue cfg st v =
      (cInt st.smoothValue,
       { st with errorEMA := postEMA st (edgeSnap cfg v), sleeping := true }) := by
  simp [getResponsiveValue, hs, hq]

/-- C2: with `sleepEnable = true`, every call that finds `|errorEMA| <
activityThreshold` right after the error-EMA update returns the truncation of
`smoothValue` and leaves `smoothValue` unchanged; consequently a run of
consecutive calls that all satisfy that condition emits one unchanged output
(the truncation of the initial `smoothValue`) at every step and preserves
`smoothValue` to the end. -/
theorem C2_sleep_freeze (cfg : Config) (hs : cfg.sleepEnable = true) :
    (∀ (st : State) (v : ℤ), |postEMA st (edgeSnap cfg v)| < cfg.activityThreshold →
      (getResponsiveValue cfg st v).1 = cInt st.smoothValue
      ∧ (getResponsiveValue cfg st v).2.smoothValue = st.smoothValue)
    ∧ (∀ (st : State) (samples : List ℤ), allSleep cfg st samples →
      runOutputs cfg st samples = List.replicate samples.length (cInt st.smoothValue)
      ∧ (runState cfg st samples).smoothValue = st.smoothValue) := by
  constructor
  · intro st v hq
    rw [getResponsiveValue_sleep cfg st v hs hq]
    exact ⟨rfl, rfl⟩
  · intro st samples
    induction samples generalizing st with
    | nil => intro _; exact ⟨rfl, rfl⟩
    | cons v vs ih =>
      intro hall
      obtain ⟨hq, hrest⟩ := hall
      have hupd : (update cfg st v).smoothValue = st.smoothValue := by
        show (getResponsiveValue cfg st v).2.smoothValue = st.smoothValue
        rw [getResponsiveValue_sleep cfg st v hs hq]
      have hout : (update cfg st v).responsiveValue = cInt st.smoothValue := by
        show (getResponsiveValue cfg st v).1 = cInt st.smoothValue
        rw [getResponsiveValue_sleep cfg st v hs hq]
      have hih := ih (update cfg st v) hrest
      constructor
      · show (update cfg st v).responsiveValue :: runOutputs cfg (update cfg st v) vs
            = List.replicate (v :: vs).length (cInt st.smoothValue)
        rw [hout, hih.1, hupd, List.length_cons, List.replicate_succ]
      · show (runState cfg (update cfg st v) vs).smoothValue = st.smoothValue
        rw [hih.2, hupd]

/-- A shared concrete configuration for witnesses: sleep enabled, edge snap
disabled, snap multiplier 1/2, activity threshold 4, resolution 1024. -/
def cfgS : Config := ⟨true, false, 1 / 2, 4, 1024⟩

/-- A shared concrete settled state for witnesses: `smoothValue = 10`,
`errorEMA = 0`, last output 10. -/
def stS : State := ⟨10, 0, false, 0, 10, 10, false⟩

/-- C2 witness: `C2_sleep_freeze` applied to the concrete configuration `cfgS`,
state `stS` and the one-sample run `[10]`, every hypothesis discharged there. -/
theorem C2_witness :
    |postEMA stS (edgeSnap cfgS 10)| < cfgS.activityThreshold
    ∧ runOutputs cfgS stS [10] = List.replicate 1 (cInt stS.smoothValue)
    ∧ (runState cfgS stS [10]).smoothValue = stS.smoothValue := by
  have hq : |postEMA stS (edgeSnap cfgS 10)| < cfgS.activityThreshold := by
    norm_num [postEMA, edgeSnap, cfgS, stS]
  have h := (C2_sleep_freeze cfgS rfl).2 stS [10] ⟨hq, trivial⟩
  exact ⟨hq, h.1, h.2⟩

/-- C10: a sleeping `update` call does not freeze the whole state: it stores the
raw sample, still moves `errorEMA` by `((newValue - smoothValue) - errorEMA) * 0.4`
(with `newValue` the edge-snapped sample), recomputes `sleeping`, both output
fields and the change flag, and leaves exactly `smoothValue` (hence the emitted
value `cInt smoothValue`) where it was. -/
theorem C10_sleep_frame (cfg : Config) (st : State) (v : ℤ)
    (hs : cfg.sleepEnable = true)
    (hq : |postEMA st (edgeSnap cfg v)| < cfg.activityThreshold) :
    (update cfg st v).rawValue = v
    ∧ (update cfg st v).errorEMA = postEMA st (edgeSnap cfg v)
    ∧ (update cfg st v).sleeping = true
    ∧ (update cfg st v).smoothValue = st.smoothValue
    ∧ (update cfg st v).prevResponsiveValue = st.responsiveValue
    ∧ (update cfg st v).responsiveValue = cInt st.smoothValue
    ∧ (update cfg st v).responsiveValueHasChanged
        = decide (cInt st.smoothValue ≠ st.responsiveValue) := by
  have h := getResponsiveValue_sleep cfg st v hs hq
  unfold update
  rw [h]
  exact ⟨rfl, rfl, rfl, rfl, rfl, rfl, rfl⟩

/-- C10 witness: `C10_sleep_frame` applied to `cfgS`, `stS` and the sample 10,
with both hypotheses discharged there. -/
theorem C10_witness :
    |postEMA stS (edgeSnap cfgS 10)| < cfgS.activityThreshold
    ∧ (update cfgS stS 10).rawValue = 10
    ∧ (update cfgS stS 10).smoothValue = stS.smoothValue
    ∧ (update cfgS stS 10).responsiveValue = cInt stS.smoothValue := by
  have hq : |postEMA stS (edgeSnap cfgS 10)| < cfgS.activityThreshold := by
    norm_num [postEMA, edgeSnap, cfgS, stS]
  have h := C10_sleep_frame cfgS stS 10 rfl hq
  exact ⟨hq, h.1, h.2.2.2.1, h.2.2.2.2.2.1⟩

end ResponsiveAnalogRead

namespace ResponsiveAnalogRead

/-! Claim C1: the output-bound invariant. -/

/-- Shape of one `getResponsiveValue` call: the returned integer is the truncation
of the new `smoothValue`, and the new `smoothValue` is either the old one (sleeping
branch, which skips the clamp) or the result of the output clamp. -/
lemma getResponsiveValue_shape (cfg : Config) (st : State) (v : ℤ) :
    (getResponsiveValue cfg st v).1 = cInt ((getResponsiveValue cfg st v).2.smoothValue)
    ∧ ((getResponsiveValue cfg st v).2.smoothValue = st.smoothValue
      ∨ ∃ q, (getResponsiveValue cfg st v).2.smoothValue = clampRes cfg.analogResolution q) := by
  by_cases h : (cfg.sleepEnable &&
      (if cfg.sleepEnable then decide (|postEMA st (edgeSnap cfg v)| < cfg.activityThreshold)
       else st.sleeping)) = true
  · simp only [getResponsiveValue, if_pos h]
    exact ⟨trivial, Or.inl trivial⟩
  · simp only [getResponsiveValue, if_neg h]
    exact ⟨trivial, Or.inr ⟨_, rfl⟩⟩

/-- One `getResponsiveValue` call keeps `smoothValue` in `[0, analogResolution - 1]`
and emits an integer in the same range, for any resolution of at least 1. -/
lemma getResponsiveValue_bounds (cfg : Config) (st : State) (v : ℤ)
    (hres : 1 ≤ cfg.analogResolution)
    (h0 : 0 ≤ st.smoothValue) (h1 : st.smoothValue ≤ (cfg.analogResolution : ℚ) - 1) :
    (0 ≤ (getResponsiveValue cfg st v).1
      ∧ (getResponsiveValue cfg st v).1 ≤ cfg.analogResolution - 1)
    ∧ 0 ≤ (getResponsiveValue cfg st v).2.smoothValue
    ∧ (getResponsiveValue cfg st v).2.smoothValue ≤ (cfg.analogResolution : ℚ) - 1 := by
  obtain ⟨hout, hsm⟩ := getResponsiveValue_shape cfg st v
  have hmem : 0 ≤ (getResponsiveValue cfg st v).2.smoothValue
      ∧ (getResponsiveValue cfg st v).2.smoothValue ≤ (cfg.analogResolution : ℚ) - 1 := by
    rcases hsm with h | ⟨q, h⟩
    · rw [h]; exact ⟨h0, h1⟩
    · rw [h]; exact clampRes_mem cfg.analogResolution q hres
  have hcast : ((cfg.analogResolution - 1 : ℤ) : ℚ) = (cfg.analogResolution : ℚ) - 1 := by
    push_cast; ring
  refine ⟨⟨?_, ?_⟩, hmem⟩
  · rw [hout]; exact cInt_nonneg _ hmem.1
  · rw [hout]
    exact cInt_le_intCast _ _ hmem.1 (by rw [hcast]; exact hmem.2)

/-- C1: for every sequence of raw samples and every configuration with
`analogResolution ≥ 1`, starting from any state whose `smoothValue` lies in
`[0, analogResolution - 1]` (in particular from the initial state
`smoothValue = 0`), every output emitted through `update` lies in
`[0, analogResolution - 1]` — including outputs of sleeping calls, which skip the
clamp — and `smoothValue` is still in `[0, analogResolution - 1]` afterwards. -/
theorem C1_output_bounds (cfg : Config) (st : State) (samples : List ℤ)
    (hres : 1 ≤ cfg.analogResolution)
    (h0 : 0 ≤ st.smoothValue) (h1 : st.smoothValue ≤ (cfg.analogResolution : ℚ) - 1) :
    (∀ o ∈ runOutputs cfg st samples, 0 ≤ o ∧ o ≤ cfg.analogResolution - 1)
    ∧ 0 ≤ (runState cfg st samples).smoothValue
    ∧ (runState cfg st samples).smoothValue ≤ (cfg.analogResolution : ℚ) - 1 := by
  induction samples generalizing st with
  | nil =>
    exact ⟨fun o ho => absurd ho (List.not_mem_nil o), h0, h1⟩
  | cons v vs ih =>
    have hb := getResponsiveValue_bounds cfg st v hres h0 h1
    have hsm0 : 0 ≤ (update cfg st v).smoothValue := hb.2.1
    have hsm1 : (update cfg st v).smoothValue ≤ (cfg.analogResolution : ℚ) - 1 := hb.2.2
    have hih := ih (update cfg st v) hsm0 hsm1
    refine ⟨?_, hih.2.1, hih.2.2⟩
    intro o ho
    rcases List.mem_cons.mp ho with h | h
    · subst h
      exact hb.1
    · exact hih.1 o h

/-- C1 witness: `C1_output_bounds` applied to a concrete configuration
(resolution 1024, sleep and edge snap enabled), the initial state and a concrete
sample sequence that exercises out-of-range inputs, with every hypothesis
discharged there. -/
theorem C1_witness :
    (1 ≤ (⟨true, true, 1 / 2, 4, 1024⟩ : Config).analogResolution
      ∧ 0 ≤ initState.smoothValue
      ∧ initState.smoothValue ≤ (((⟨true, true, 1 / 2, 4, 1024⟩ : Config).analogResolution : ℚ) - 1))
    ∧ ∀ o ∈ runOutputs ⟨true, true, 1 / 2, 4, 1024⟩ initState [5, 2000, -50],
        0 ≤ o ∧ o ≤ (⟨true, true, 1 / 2, 4, 1024⟩ : Config).analogResolution - 1 :=
  ⟨⟨by norm_num, by norm_num [initState], by norm_num [initState]⟩,
   (C1_output_bounds ⟨true, true, 1 / 2, 4, 1024⟩ initState [5, 2000, -50]
     (by norm_num) (by norm_num [initState]) (by norm_num [initState])).1⟩

end ResponsiveAnalogRead

namespace ResponsiveAnalogRead

/-! Claim C7: edge-snap preprocessing. -/

/-- C7: edge-snap preprocessing rewrites the sample exactly when both `sleepEnable`
and `edgeSnapEnable` hold: below the activity threshold the sample becomes
`rawSample*2 - activityThreshold` (stored into an `int`, hence `cInt`-truncated);
above `analogResolution - activityThreshold` it becomes
`rawSample*2 - analogResolution + activityThreshold`; in every other case — and
whenever either flag is off — it passes through unchanged. When the threshold is
an integer (as the default 4.0 is) the truncations vanish and the rewritten values
are exactly the claimed integer expressions. -/
theorem C7_edge_snap (cfg : Config) (v : ℤ) :
    (¬ (cfg.sleepEnable = true ∧ cfg.edgeSnapEnable = true) → edgeSnap cfg v = v)
    ∧ (cfg.sleepEnable = true → cfg.edgeSnapEnable = true →
        (((v : ℚ) < cfg.activityThreshold →
          edgeSnap cfg v = cInt (((v * 2 : ℤ) : ℚ) - cfg.activityThreshold))
        ∧ (¬ (v : ℚ) < cfg.activityThreshold →
            (cfg.analogResolution : ℚ) - cfg.activityThreshold < (v : ℚ) →
            edgeSnap cfg v = cInt (((v * 2 - cfg.analogResolution : ℤ) : ℚ) + cfg.activityThreshold))
        ∧ (¬ (v : ℚ) < cfg.activityThreshold →
            ¬ (cfg.analogResolution : ℚ) - cfg.activityThreshold < (v : ℚ) →
            edgeSnap cfg v = v)))
    ∧ (∀ t : ℤ, cfg.activityThreshold = (t : ℚ) →
        cfg.sleepEnable = true → cfg.edgeSnapEnable = true →
        (((v : ℚ) < cfg.activityThreshold → edgeSnap cfg v = v * 2 - t)
        ∧ (¬ (v : ℚ) < cfg.activityThreshold →
            (cfg.analogResolution : ℚ) - cfg.activityThreshold < (v : ℚ) →
            edgeSnap cfg v = v * 2 - cfg.analogResolution + t))) := by
  refine ⟨?_, ?_, ?_⟩
  · intro h
    have hb : ¬ ((cfg.sleepEnable && cfg.edgeSnapEnable) = true) := by
      rw [Bool.and_eq_true]
      exact h
    simp [edgeSnap, hb]
  · intro hs he
    have hb : (cfg.sleepEnable && cfg.edgeSnapEnable) = true := by
      rw [Bool.and_eq_true]
      exact ⟨hs, he⟩
    refine ⟨?_, ?_, ?_⟩
    · intro hlt
      simp [edgeSnap, hb, hlt]
    · intro hge hgt
      simp [edgeSnap, hb, hge, hgt]
    · intro hge hng
      simp [edgeSnap, hb, hge, hng]
  · intro t ht hs he
    have hb : (cfg.sleepEnable && cfg.edgeSnapEnable) = true := by
      rw [Bool.and_eq_true]
      exact ⟨hs, he⟩
    constructor
    · intro hlt
      have h1 : edgeSnap cfg v = cInt (((v * 2 : ℤ) : ℚ) - cfg.activityThreshold) := by
        simp [edgeSnap, hb, hlt]
      have h2 : ((v * 2 : ℤ) : ℚ) - (t : ℚ) = ((v * 2 - t : ℤ) : ℚ) := by
        push_cast; ring
      rw [h1, ht, h2, cInt_intCast]
    · intro hge hgt
      have h1 : edgeSnap cfg v
          = cInt (((v * 2 - cfg.analogResolution : ℤ) : ℚ) + cfg.activityThreshold) := by
        simp [edgeSnap, hb, hge, hgt]
      have h2 : ((v * 2 - cfg.analogResolution : ℤ) : ℚ) + (t : ℚ)
          = ((v * 2 - cfg.analogResolution + t : ℤ) : ℚ) := by
        push_cast; ring
      rw [h1, ht, h2, cInt_intCast]

/-- A shared concrete configuration with sleep and edge snap both enabled,
threshold 4, resolution 1024. -/
def cfgE : Config := ⟨true, true, 1 / 2, 4, 1024⟩

/-- C7 witness: `C7_edge_snap` applied to concrete configurations and samples in
each regime (low edge, high edge, middle, flag off), every hypothesis discharged
there. -/
theorem C7_witness :
    edgeSnap cfgE 2 = 0
    ∧ edgeSnap cfgE 1022 = 1024
    ∧ edgeSnap cfgE 500 = 500
    ∧ edgeSnap cfgS 2 = 2 := by
  refine ⟨?_, ?_, ?_, ?_⟩
  · have h := ((C7_edge_snap cfgE 2).2.2 4 (by norm_num [cfgE]) rfl rfl).1 (by norm_num [cfgE])
    rw [h]
    decide
  · have h := ((C7_edge_snap cfgE 1022).2.2 4 (by norm_num [cfgE]) rfl rfl).2
      (by norm_num [cfgE]) (by norm_num [cfgE])
    rw [h]
    norm_num [cfgE]
  · exact ((C7_edge_snap cfgE 500).2.1 rfl rfl).2.2 (by norm_num [cfgE]) (by norm_num [cfgE])
  · exact (C7_edge_snap cfgS 2).1 (by simp [cfgS])

end ResponsiveAnalogRead

namespace ResponsiveAnalogRead

/-! Claims C4, C5, C9: the piecewise-linear range mapper. -/

/-- The scan loop, over a plain list: if the first `k` entries are all below `val`
and entry `k` reaches it, the loop stops at offset `k`. -/
lemma scanFrom_spec (val : ℤ) :
    ∀ (l : List ℤ) (k pos : ℕ), k < l.length →
      (∀ j, j < k → l.getD j 0 < val) → val ≤ l.getD k 0 →
      scanFrom val l pos = some (pos + k) := by
  intro l
  induction l with
  | nil =>
    intro k pos hk
    simp at hk
  | cons a rest ih =>
    intro k pos hk hlt hle
    cases k with
    | zero =>
      have hna : ¬ val > a := by
        rw [List.getD_cons_zero] at hle
        exact not_lt.mpr hle
      simp [scanFrom, hna]
    | succ k2 =>
      have ha : val > a := by
        have h0 := hlt 0 (Nat.succ_pos k2)
        rwa [List.getD_cons_zero] at h0
      have hres := ih k2 (pos + 1) (by simpa using hk)
        (fun j hj => by
          have hj1 := hlt (j + 1) (Nat.succ_lt_succ hj)
          rwa [List.getD_cons_succ] at hj1)
        (by rwa [List.getD_cons_succ] at hle)
      calc scanFrom val (a :: rest) pos = scanFrom val rest (pos + 1) := by
            simp [scanFrom, ha]
      _ = some (pos + 1 + k2) := hres
      _ = some (pos + (k2 + 1)) := by rw [Nat.add_assoc, Nat.add_comm 1 k2]

/-- Strictly increasing tables compare entry-wise through `getD`. -/
lemma getD_lt_getD (l : List ℤ) (hs : l.Pairwise (· < ·)) (i j : ℕ)
    (hij : i < j) (hj : j < l.length) : l.getD i 0 < l.getD j 0 := by
  rw [List.getD_eq_getElem l 0 (lt_trans hij hj), List.getD_eq_getElem l 0 hj]
  exact List.pairwise_iff_getElem.mp hs i j (lt_trans hij hj) hj hij

/-- The `multiMap` scan (started at position 1 over the table suffix) stops
exactly at the least index `i ≥ 1` whose table entry reaches `val`. -/
lemma scanFrom_stops (inL : List ℤ) (val : ℤ) (i : ℕ)
    (hile : i < inL.length) (hi1 : 1 ≤ i)
    (hival : val ≤ inL.getD i 0)
    (himin : ∀ j, j < i → inL.getD j 0 < val) :
    scanFrom val (inL.drop 1) 1 = some i := by
  obtain ⟨k, rfl⟩ : ∃ k, i = k + 1 := ⟨i - 1, by omega⟩
  obtain ⟨a, rest, hcons⟩ : ∃ a rest, inL = a :: rest := by
    cases hl : inL with
    | nil => rw [hl] at hile; simp at hile
    | cons a rest => exact ⟨a, rest, rfl⟩
  rw [hcons]
  show scanFrom val rest 1 = some (k + 1)
  have hres := scanFrom_spec val rest k 1
    (by rw [hcons] at hile; simpa using hile)
    (fun j hj => by
      have hj1 := himin (j + 1) (by omega)
      rwa [hcons, List.getD_cons_succ] at hj1)
    (by rw [hcons, List.getD_cons_succ] at hival; exact hival)
  rw [hres, Nat.add_comm]

/-- Interior calls of `multiMap`: when `val` lies strictly between the first table
entry and the entry at `_mapSize - 1`, and `i` is the least index whose entry
reaches `val`, the call lands on the exact-hit test and otherwise on the
interpolation formula of line 181. -/
lemma multiMap_interior (st : MapState) (val : ℤ) (i : ℕ)
    (hlo : st._in.getD 0 0 < val)
    (hhi : val < st._in.getD (st._mapSize - 1) 0)
    (hile : i < st._in.length)
    (hival : val ≤ st._in.getD i 0)
    (himin : ∀ j, j < i → st._in.getD j 0 < val) :
    multiMap st val =
      if val = st._in.getD i 0 then some (st._out.getD i 0)
      else
        some (Int.tdiv ((val - st._in.getD (i - 1) 0) *
            (st._out.getD i 0 - st._out.getD (i - 1) 0))
            (st._in.getD i 0 - st._in.getD (i - 1) 0) +
          st._out.getD (i - 1) 0) := by
  have hi1 : 1 ≤ i := by
    rcases Nat.eq_zero_or_pos i with h | h
    · rw [h] at hival
      exact absurd hival (not_le.mpr hlo)
    · exact h
  have hscan := scanFrom_stops st._in val i hile hi1 hival himin
  unfold multiMap
  rw [if_neg (not_le.mpr hlo), if_neg (not_le.mpr hhi), hscan]

/-- C4: an interior `multiMap` call that does not hit a breakpoint exactly (with
`i` the least index such that `_in[i] ≥ val`) returns
`_out[i-1] + (val - _in[i-1]) * (_out[i] - _out[i-1]) / (_in[i] - _in[i-1])` with
C truncating integer division; in particular the spec table `in=[0,100,200]`,
`out=[0,128,255]` gives `map(50) = 64`. The `_in.length ≤ 255` hypothesis records
that the C table size is a `uint8_t`, so the natural-number scan counter used in
the embedding agrees with the `uint8_t` counter of the source. -/
theorem C4_interpolation (st : MapState) (val : ℤ) (i : ℕ)
    (hcap : st._in.length ≤ 255)
    (hlo : st._in.getD 0 0 < val)
    (hhi : val < st._in.getD (st._mapSize - 1) 0)
    (hile : i < st._in.length)
    (hival : val ≤ st._in.getD i 0)
    (himin : ∀ j, j < i → st._in.getD j 0 < val)
    (hne : val ≠ st._in.getD i 0) :
    multiMap st val =
      some (st._out.getD (i - 1) 0 +
        Int.tdiv ((val - st._in.getD (i - 1) 0) * (st._out.getD i 0 - st._out.getD (i - 1) 0))
          (st._in.getD i 0 - st._in.getD (i - 1) 0))
    ∧ multiMap exMap 50 = some 64 := by
  constructor
  · rw [multiMap_interior st val i hlo hhi hile hival himin, if_neg hne]
    exact congrArg some (add_comm _ _)
  · decide

/-- C4 witness: `C4_interpolation` applied to the spec table at `val = 50`,
`i = 1`, every hypothesis discharged there. -/
theorem C4_witness :
    exMap._in.length ≤ 255
    ∧ multiMap exMap 50
      = some (exMap._out.getD 0 0 +
        Int.tdiv ((50 - exMap._in.getD 0 0) * (exMap._out.getD 1 0 - exMap._out.getD 0 0))
          (exMap._in.getD 1 0 - exMap._in.getD 0 0)) := by
  refine ⟨by decide, ?_⟩
  exact (C4_interpolation exMap 50 1 (by decide) (by decide) (by decide) (by decide) (by decide)
    (fun j hj => by
      have hj0 : j = 0 := Nat.lt_one_iff.mp hj
      rw [hj0]
      decide)
    (by decide)).1

/-- C5: for every strictly increasing table of at least two points (sizes fit the
`uint8_t` of the C API), `multiMap` clamps to `_out[0]` at or below the first
inPoint, clamps to the last outPoint at or above the last inPoint, and hits every
breakpoint exactly; the spec table gives `map(0)=0`, `map(100)=128`,
`map(200)=255`, `map(-10)=0`, `map(500)=255`. -/
theorem C5_exact_hits_and_clamp (st : MapState)
    (hsize : st._mapSize = st._in.length) (hlen : 2 ≤ st._in.length)
    (hcap : st._in.length ≤ 255) (hsorted : st._in.Pairwise (· < ·)) :
    (∀ val : ℤ, val ≤ st._in.getD 0 0 → multiMap st val = some (st._out.getD 0 0))
    ∧ (∀ val : ℤ, st._in.getD (st._in.length - 1) 0 ≤ val →
        multiMap st val = some (st._out.getD (st._in.length - 1) 0))
    ∧ (∀ i, i < st._in.length → multiMap st (st._in.getD i 0) = some (st._out.getD i 0))
    ∧ (multiMap exMap 0 = some 0 ∧ multiMap exMap 100 = some 128
      ∧ multiMap exMap 200 = some 255
      ∧ multiMap exMap (-10) = some 0 ∧ multiMap exMap 500 = some 255) := by
  have hfirst : ∀ val : ℤ, val ≤ st._in.getD 0 0 →
      multiMap st val = some (st._out.getD 0 0) := by
    intro val h
    unfold multiMap
    rw [if_pos h]
  have hlast : ∀ val : ℤ, st._in.getD (st._in.length - 1) 0 ≤ val →
      multiMap st val = some (st._out.getD (st._in.length - 1) 0) := by
    intro val h
    have h0 : st._in.getD 0 0 < st._in.getD (st._in.length - 1) 0 :=
      getD_lt_getD st._in hsorted 0 (st._in.length - 1) (by omega) (by omega)
    unfold multiMap
    rw [if_neg (not_le.mpr (lt_of_lt_of_le h0 h)), hsize, if_pos h]
  refine ⟨hfirst, hlast, ?_, by decide, by decide, by decide, by decide, by decide⟩
  intro i hi
  by_cases hi0 : i = 0
  · subst hi0
    exact hfirst _ le_rfl
  · by_cases hilast : i = st._in.length - 1
    · subst hilast
      exact hlast _ le_rfl
    · have hlo : st._in.getD 0 0 < st._in.getD i 0 :=
        getD_lt_getD st._in hsorted 0 i (by omega) hi
      have hhi : st._in.getD i 0 < st._in.getD (st._in.length - 1) 0 :=
        getD_lt_getD st._in hsorted i (st._in.length - 1) (by omega) (by omega)
      have hmain := multiMap_interior st (st._in.getD i 0) i hlo
        (by rw [hsize]; exact hhi) hi le_rfl
        (fun j hj => getD_lt_getD st._in hsorted j i hj hi)
      rw [hmain, if_pos rfl]

/-- C5 witness: `C5_exact_hits_and_clamp` applied to the spec table, hitting
breakpoint 1 exactly, every hypothesis discharged there. -/
theorem C5_witness :
    (exMap._mapSize = exMap._in.length ∧ 2 ≤ exMap._in.length
      ∧ exMap._in.length ≤ 255 ∧ exMap._in.Pairwise (· < ·))
    ∧ multiMap exMap (exMap._in.getD 1 0) = some (exMap._out.getD 1 0) :=
  ⟨⟨by decide, by decide, by decide, by decide⟩,
   (C5_exact_hits_and_clamp exMap (by decide) (by decide) (by decide) (by decide)).2.2.1
     1 (by decide)⟩

/-- C9: for every strictly increasing table of at least two points whose size fits
the `uint8_t` of the C API, and every input, `multiMap` returns a value (`isSome`):
the out-of-bounds marker `none` of the embedded scan loop is unreachable; moreover,
whenever the scan runs (interior inputs only), it stops at a position `r` with
`1 ≤ r ≤ _mapSize - 1`, between entries that bracket `val`, so every table access
`_in[pos]`, `_in[pos-1]`, `_out[pos]`, `_out[pos-1]` stays inside the table. -/
theorem C9_multimap_safety (st : MapState)
    (hsize : st._mapSize = st._in.length) (hlen : 2 ≤ st._in.length)
    (hcap : st._in.length ≤ 255) (hsorted : st._in.Pairwise (· < ·)) (val : ℤ) :
    (multiMap st val).isSome = true
    ∧ (st._in.getD 0 0 < val → val < st._in.getD (st._in.length - 1) 0 →
        ∃ r, scanFrom val (st._in.drop 1) 1 = some r ∧ 1 ≤ r ∧ r ≤ st._in.length - 1
          ∧ val ≤ st._in.getD r 0 ∧ st._in.getD (r - 1) 0 < val) := by
  by_cases h1 : val ≤ st._in.getD 0 0
  · constructor
    · unfold multiMap
      rw [if_pos h1]
      rfl
    · intro hlo _
      exact absurd h1 (not_le.mpr hlo)
  · by_cases h2 : st._in.getD (st._in.length - 1) 0 ≤ val
    · constructor
      · unfold multiMap
        rw [if_neg h1, hsize, if_pos h2]
        rfl
      · intro _ hhi
        exact absurd h2 (not_le.mpr hhi)
    · have hlo : st._in.getD 0 0 < val := not_le.mp h1
      have hhi : val < st._in.getD (st._in.length - 1) 0 := not_le.mp h2
      have hex : ∃ j, val ≤ st._in.getD j 0 := ⟨st._in.length - 1, le_of_lt hhi⟩
      have hival : val ≤ st._in.getD (Nat.find hex) 0 := Nat.find_spec hex
      have himin : ∀ j, j < Nat.find hex → st._in.getD j 0 < val := by
        intro j hj
        exact not_le.mp (Nat.find_min hex hj)
      have hitop : Nat.find hex ≤ st._in.length - 1 := Nat.find_min' hex (le_of_lt hhi)
      have hile : Nat.find hex < st._in.length := by omega
      have hi1 : 1 ≤ Nat.find hex := by
        rcases Nat.eq_zero_or_pos (Nat.find hex) with h | h
        · rw [h] at hival
          exact absurd hival (not_le.mpr hlo)
        · exact h
      have hmain := multiMap_interior st val (Nat.find hex) hlo
        (by rw [hsize]; exact hhi) hile hival himin
      constructor
      · rw [hmain]
        split_ifs <;> rfl
      · intro _ _
        exact ⟨Nat.find hex, scanFrom_stops st._in val (Nat.find hex) hile hi1 hival himin,
          hi1, hitop, hival, himin (Nat.find hex - 1) (by omega)⟩

/-- C9 witness: `C9_multimap_safety` applied to the spec table at the interior
input 150, every hypothesis discharged there. -/
theorem C9_witness :
    (exMap._mapSize = exMap._in.length ∧ 2 ≤ exMap._in.length
      ∧ exMap._in.length ≤ 255 ∧ exMap._in.Pairwise (· < ·))
    ∧ (multiMap exMap 150).isSome = true :=
  ⟨⟨by decide, by decide, by decide, by decide⟩,
   (C9_multimap_safety exMap (by decide) (by decide) (by decide) (by decide) 150).1⟩

end ResponsiveAnalogRead
